import Mathlib

/-!
Verification of the pipeline lifecycle engine in
`src/chi_annotator/task_center/model.py` (classes `Trainer` and `Interpreter`).

The embedding translates the Python source into pure Lean definitions:
Python dicts become insertion-ordered association lists over a value type
`Val` (floats are modelled as rationals), raised exceptions become
`Except PyErr`, and the in-place mutation of the training corpus is made
explicit through a heap of `TData` cells addressed by natural numbers.
Collaborator classes that the source imports from modules not present in
the repository snapshot (`Message`, `Metadata`, `ComponentBuilder`,
`components.validate_arguments`, `components.validate_requirements`) are
modelled from the specification, as marked in their doc comments.
-/

set_option maxHeartbeats 1000000

namespace ChiAnnotator

/-- Values stored in Python dictionaries: strings, numbers (Python floats
and ints modelled as rationals), lists and nested dicts. -/
inductive Val where
  | str (s : String)
  | num (q : ℚ)
  | list (vs : List Val)
  | dict (d : List (String × Val))

/-- A Python dict, embedded as an insertion-ordered association list. -/
abbrev Ctx := List (String × Val)

/-- Python item assignment `d[k] = v` on an insertion-ordered dict: if the
key is present its value is replaced in place, otherwise the pair is
appended at the end. -/
def dictSet : Ctx → String → Val → Ctx
  | [], k, v => [(k, v)]
  | p :: rest, k, v => if p.1 = k then (k, v) :: rest else p :: dictSet rest k v

/-- Python `d.update(u)`: every pair of `u` is assigned into `d`, in the
insertion order of `u`. -/
def dictUpdate (d : Ctx) (u : Ctx) : Ctx :=
  u.foldl (fun acc p => dictSet acc p.1 p.2) d

/-- Python `d.get(k)`: the value at the first (in a real dict, only)
occurrence of key `k`. -/
def dictGet : Ctx → String → Option Val
  | [], _ => none
  | p :: rest, k => if p.1 = k then some p.2 else dictGet rest k

/-- Key membership, Python `k in d`. -/
def hasKey (d : Ctx) (k : String) : Bool :=
  (dictGet d k).isSome

/-- A real Python dict never holds two entries with the same key; the
association lists produced by `dictSet`/`dictUpdate` preserve this. -/
def nodupKeys (d : Ctx) : Prop :=
  d.Pairwise (fun p q => p.1 ≠ q.1)

/-- The keys of a dict, Python `d.keys()`. -/
def dictKeys (d : Ctx) : List String :=
  d.map Prod.fst


/-- Python exceptions raised through the pipeline core.  `missingArgument`
is `components.MissingArgumentError`; `componentResolution` stands for the
resolution/requirement failures of the registry; `exception` is a plain
Python `Exception(msg)` such as the one raised by `Interpreter.create`
(model.py line 181). -/
inductive PyErr where
  | missingArgument (msg : String)
  | componentResolution (msg : String)
  | exception (msg : String)

/-- Rendering `str(e)` of an exception, used when one exception message
embeds another (model.py line 182 formats the caught error into the new
message). -/
def PyErr.message : PyErr → String
  | .missingArgument m => m
  | .componentResolution m => m
  | .exception m => m

/-- The configuration object: the source reads `config["language"]`
(model.py line 89) and iterates `config.pipeline` (line 45). -/
structure Config where
  language : String
  pipeline : List String

/-- Modelled from the spec: `TrainingData` (imported, not in src) is the
labeled corpus, opaque to this core except that it supports
`persist(dir) -> mapping` and is deep-copied before training; `content`
stands for its mutable payload. -/
structure TData where
  content : Val
  persist : String → Ctx

/-- A heap of Python objects holding corpus data, addressed by object
identity; `copy.deepcopy` (model.py line 68) allocates a fresh address
with a copy of the value, so mutation of the working copy is visible at
its own address only. -/
abbrev Heap := Nat → TData

/-- Modelled from the spec: `Message` (imported, not in src) is the
mutable unit of data flowing through the pipeline at inference time,
holding the input text, a mapping of named output attributes (mutated in
place by components), the keys marked as output properties, and an
optional timestamp. -/
structure Message where
  text : String
  output : Ctx
  output_properties : List String
  time : Option Val

/-- Modelled from the spec: `as_dict(only_output_properties=True)`
returns every key the message ends up holding that is marked an output
property. -/
def Message.as_dict_only_output (m : Message) : Ctx :=
  m.output.filter (fun p => decide (p.1 ∈ m.output_properties))

/-- A pipeline component (class `Component`, imported, not in src),
embedded through the uniform contract the source calls: `name`,
`provide_context`, `train`, `process`, `persist`, plus the pieces the
spec-modelled collaborators need: `module_path` is what
`utils.module_path_from_object` returns for the component (its
fully-qualified type identifier), and `requires`/`provides` are the
context keys its `train` declares required resp. promises to provide,
consulted by the spec-modelled `components.validate_arguments`.
`provide_context` and `train` may raise; `train` takes the working copy
of the corpus and returns its (possibly mutated) value together with the
context updates, modelling in-place mutation of its argument.  A
`provide_context` / `train` / `persist` result of `none` models Python
`None` (falsy, so `context.update` is skipped; an empty dict is equally
falsy, and updating with an empty dict is a no-op). -/
structure Component where
  name : String
  module_path : String
  provide_context : Except PyErr (Option Ctx)
  requires : List String
  provides : List String
  train : TData → Config → Ctx → TData × Except PyErr (Option Ctx)
  process : Message → Ctx → Message
  persist : String → Option Ctx

/-- Observable calls the engine makes into components, in order.
`prepCall` records `prepare_partial_processing(self.pipeline[:i], context)`
(model.py line 72), `trainCall` records `train(working_data, self.config,
**context)` (line 73) together with the heap address and value of the data
object passed, and `processCall` records `process(message, **self.context)`
(line 211). -/
inductive Event where
  | prepCall (c : Component) (prior : List Component) (ctx : Ctx)
  | trainCall (c : Component) (ref : Nat) (data : TData) (ctx : Ctx)
  | processCall (c : Component) (ctx : Ctx)

/-- Modelled from the spec: `Metadata` (imported, not in src) is the
persisted description of a trained pipeline — an open record holding at
least the `language` and `pipeline` entries plus per-component persisted
keys — together with the model directory it was loaded from. -/
structure Metadata where
  record : Ctx
  model_dir : String

/-- Modelled from the spec: the `pipeline` property of `Metadata` — the
ordered component identifiers stored under the record's `pipeline` key. -/
def Metadata.getPipeline (m : Metadata) : List String :=
  match dictGet m.record "pipeline" with
  | some (Val.list vs) =>
      vs.filterMap (fun v => match v with | Val.str s => some s | _ => none)
  | _ => []

/-- Modelled from the spec: `ComponentBuilder` resolves a component name
to a fresh instance (`create_component`, used by `Trainer.__init__`) or to
an instance reconstructed from persisted state (`load_component`, used by
`Interpreter.create`, which passes the model directory, the metadata, the
config and the accumulated context). -/
structure ComponentBuilder where
  create_component : String → Config → Component
  load_component : String → String → Metadata → Config → Ctx → Component

/-- The `Trainer` object state: `config`, `skip_validation` and
`training_data` are set in `__init__`/`train` (model.py lines 29-31, 54);
`pipeline` is the ordered list of component instances built in
`__init__` (lines 45-48). -/
structure TrainerState where
  config : Config
  skip_validation : Bool
  training_data : Option TData
  pipeline : List Component

/-- `Trainer.__init__` (model.py lines 26-48): resolves each configured
component name via the builder, in order, into the pipeline.  (The
commented-out `validate_requirements` call of lines 41-42 is dead code
and is not modelled.) -/
def Trainer.make (config : Config) (component_builder : ComponentBuilder)
    (skip_validation : Bool) : TrainerState :=
  { config := config
    skip_validation := skip_validation
    training_data := none
    pipeline := config.pipeline.map
      (fun n => component_builder.create_component n config) }

/-- `if updates: context.update(updates)` (model.py lines 60-61, 75-76,
177-178). -/
def applyUpdates (ctx : Ctx) : Option Ctx → Ctx
  | some u => dictUpdate ctx u
  | none => ctx

/-- The provide-context fold of `Trainer.train` (model.py lines 56-61):
every component's `provide_context()` is merged into a running context,
left to right; a raised exception propagates. -/
def initContext : List Component → Ctx → Except PyErr Ctx
  | [], ctx => .ok ctx
  | c :: rest, ctx =>
    match c.provide_context with
    | .error e => .error e
    | .ok updates => initContext rest (applyUpdates ctx updates)

/-- Modelled from the spec: `components.validate_arguments` (imported,
not in src) — walks the pipeline in order, failing with
`MissingArgumentError` when a component requires a context key that is
neither among the supplied context keys nor promised by an earlier
component; each component's promises are added after it is checked. -/
def validate_arguments : List Component → List String → Except PyErr Unit
  | [], _ => .ok ()
  | c :: rest, provided =>
    match c.requires.find? (fun r => !provided.contains r) with
    | some r => .error (.missingArgument r)
    | none => validate_arguments rest (provided ++ c.provides)

/-- The training loop of `Trainer.train` (model.py lines 70-76): for the
i-th component, call `prepare_partial_processing(self.pipeline[:i],
context)` (recorded as an event; `done` is the already-trained prior
slice), then `train(working_data, self.config, **context)` on the working
copy at heap address `wref`, write the mutated value back, and fold the
returned updates into the context.  A raised exception aborts the loop;
the emitted events record exactly the calls that happened before the
raise. -/
def trainLoop (cfg : Config) :
    List Component → List Component → Heap → Nat → Ctx →
      List Event × Except PyErr (Ctx × Heap)
  | [], _, h, _, ctx => ([], .ok (ctx, h))
  | c :: rest, done, h, wref, ctx =>
    let d0 := h wref
    let r := c.train d0 cfg ctx
    let evs0 := [Event.prepCall c done ctx, Event.trainCall c wref d0 ctx]
    match r.2 with
    | .error e => (evs0, .error e)
    | .ok upd =>
      let out := trainLoop cfg rest (done ++ [c])
        (Function.update h wref r.1) wref (applyUpdates ctx upd)
      (evs0 ++ out.1, out.2)

/-- `Trainer.train` (model.py lines 50-78): stores the training data on
the trainer, folds every component's `provide_context()` into a context,
validates arguments unless `skip_validation`, deep-copies the corpus at
`dataRef` to the fresh address `wref`, runs the training loop, and
returns an `Interpreter(self.pipeline, context)`.  The returned event
list records the component calls made. -/
structure InterpreterState where
  pipeline : List Component
  context : Ctx
  model_metadata : Option Metadata

def Trainer.train (t : TrainerState) (h : Heap) (dataRef wref : Nat) :
    List Event × Except PyErr (TrainerState × InterpreterState × Heap) :=
  let t1 : TrainerState := { t with training_data := some (h dataRef) }
  match initContext t.pipeline [] with
  | .error e => ([], .error e)
  | .ok ctx =>
    match (if t.skip_validation then Except.ok ()
           else validate_arguments t.pipeline (dictKeys ctx)) with
    | .error e => ([], .error e)
    | .ok _ =>
      let h1 := Function.update h wref (h dataRef)
      match trainLoop t.config t.pipeline [] h1 wref ctx with
      | (events, .error e) => (events, .error e)
      | (events, .ok (ctxf, h2)) =>
        (events, .ok (t1, ⟨t.pipeline, ctxf, none⟩, h2))

/-- The body of the component loop of `Trainer.persist` (model.py lines
108-111): `update = component.persist(dir_name); if update:
metadata.update(update)`. -/
def persistStep (dir_name : String) (acc : Ctx) (c : Component) : Ctx :=
  match c.persist dir_name with
  | some u => dictUpdate acc u
  | none => acc

/-- `Trainer.persist` (model.py lines 80-119): builds the base metadata
record with the `language` and `pipeline` entries, computes the target
directory `{path}/{project_name or "default"}/{fixed_model_name or
"model_" + timestamp}`, merges in the corpus's persisted keys if training
data is present (`if self.training_data:`), then merges each component's
`persist(dir_name)` result in pipeline order, and returns the written
`Metadata(metadata, dir_name)` together with the returned `dir_name`.
The filesystem write, directory creation and the optional remote
persistor delegation are I/O side effects outside the pure embedding;
`timestamp` stands for `datetime.datetime.now().strftime(...)`. -/
def Trainer.persist (t : TrainerState) (path : String)
    (project_name : Option String) (fixed_model_name : Option String)
    (timestamp : String) : Metadata × String :=
  let base : Ctx :=
    [("language", Val.str t.config.language),
     ("pipeline", Val.list (t.pipeline.map (fun c => Val.str c.module_path)))]
  let project := match project_name with
    | none => "default"
    | some p => p
  let model_name := match fixed_model_name with
    | some n => if n.isEmpty then "model_" ++ timestamp else n
    | none => "model_" ++ timestamp
  let dir_name := path ++ "/" ++ project ++ "/" ++ model_name
  let m1 := match t.training_data with
    | some td => dictUpdate base (td.persist dir_name)
    | none => base
  let m2 := t.pipeline.foldl (persistStep dir_name) m1
  (⟨m2, dir_name⟩, dir_name)

/-- `Interpreter.default_output_attributes` (model.py lines 126-128). -/
def default_output_attributes : Ctx :=
  [("intent", Val.dict [("name", Val.str ""), ("confidence", Val.num 0)]),
   ("entities", Val.list [])]

/-- Modelled from the spec: `components.validate_requirements` (imported,
not in src) must fail when a pipeline name's declared runtime/package
prerequisites are unmet; `req_ok` stands for the package environment it
consults. -/
def validate_requirements (req_ok : String → Bool) (names : List String) :
    Except PyErr Unit :=
  if names.all req_ok then .ok ()
  else .error (.componentResolution "missing requirements")

/-- The reconstruction loop of `Interpreter.create` (model.py lines
171-182): for each component identifier, `load_component` the component
passing the accumulated context, fold its `provide_context()` into the
context and append it to the pipeline; a raised `MissingArgumentError` is
re-raised as `Exception("Failed to initialize component <name>. <cause>")`
(the source wraps the name in single quotes, omitted here). -/
def createLoop (b : ComponentBuilder) (md : Metadata) (cfg : Config) :
    List String → Ctx → List Component →
      Except PyErr (List Component × Ctx)
  | [], ctx, acc => .ok (acc, ctx)
  | n :: rest, ctx, acc =>
    let c := b.load_component n md.model_dir md cfg ctx
    match c.provide_context with
    | .error (PyErr.missingArgument m) =>
      .error (PyErr.exception
        ("Failed to initialize component " ++ c.name ++ ". " ++ m))
    | .error e => .error e
    | .ok upd => createLoop b md cfg rest (applyUpdates ctx upd) (acc ++ [c])

/-- `Interpreter.create` (model.py lines 148-184): validates requirements
unless `skip_valdation` (the parameter name keeps the source's spelling),
then reconstructs the pipeline from `model_metadata.pipeline` in order,
threading the context, and returns
`Interpreter(pipeline, context, model_metadata)`. -/
def Interpreter.create (md : Metadata) (cfg : Config) (b : ComponentBuilder)
    (skip_valdation : Bool) (req_ok : String → Bool) :
    Except PyErr InterpreterState :=
  match (if skip_valdation then Except.ok ()
         else validate_requirements req_ok md.getPipeline) with
  | .error e => .error e
  | .ok _ =>
    match createLoop b md cfg md.getPipeline [] [] with
    | .error e => .error e
    | .ok (pipeline, ctx) => .ok ⟨pipeline, ctx, some md⟩

/-- `Interpreter.load` (model.py lines 130-146), on the
backwards-compatibility path where a `Metadata` object is passed
directly: it delegates to `Interpreter.create` (reading metadata from a
model directory is an I/O effect outside the pure embedding). -/
def Interpreter.load (md : Metadata) (cfg : Config) (b : ComponentBuilder)
    (skip_valdation : Bool) (req_ok : String → Bool) :
    Except PyErr InterpreterState :=
  Interpreter.create md cfg b skip_valdation req_ok

/-- Python truthiness of the `text` argument of `parse`: `not text` is
true for an absent (`None`) or empty text. -/
def textIsEmpty : Option String → Bool
  | none => true
  | some s => s.isEmpty

/-- `Interpreter.parse` (model.py lines 193-215): on empty/absent text,
return the default output attributes with `text` set to `""` without
touching the pipeline; otherwise push a `Message` built from the text,
the default output attributes and the timestamp through every component's
`process` in pipeline order, then return the default output attributes
updated with `message.as_dict(only_output_properties=True)`.  The second
result component lists the `process` calls made, in order. -/
def Interpreter.parse (i : InterpreterState) (text : Option String)
    (time : Option Val) : Ctx × List Event :=
  if textIsEmpty text then
    (dictSet default_output_attributes "text" (Val.str ""), [])
  else
    let s := text.getD ""
    let msg0 : Message := ⟨s, default_output_attributes, [], time⟩
    let finalMsg := i.pipeline.foldl (fun m c => c.process m i.context) msg0
    (dictUpdate default_output_attributes finalMsg.as_dict_only_output,
     i.pipeline.map (fun c => Event.processCall c i.context))

/-- A plain component stub used by concrete witnesses: contributes
nothing, touches nothing. -/
def stubComponent (nm : String) : Component :=
  { name := nm
    module_path := nm
    provide_context := .ok none
    requires := []
    provides := []
    train := fun d _ _ => (d, .ok none)
    process := fun m _ => m
    persist := fun _ => none }

/-- A fixed corpus value for concrete witnesses. -/
def stubData : TData :=
  { content := Val.str "corpus", persist := fun _ => [] }

/-- A fixed heap for concrete witnesses. -/
def stubHeap : Heap := fun _ => stubData

/-- The name of the component an event calls into. -/
def eventComponentName : Event → String
  | .prepCall c _ _ => c.name
  | .trainCall c _ _ _ => c.name
  | .processCall c _ => c.name

/-- A stub whose `provide_context` returns a fixed mapping. -/
def ctxComponent (nm : String) (u : Ctx) : Component :=
  { stubComponent nm with provide_context := .ok (some u) }

/-- A stub whose `train` declares a required context key. -/
def needsComponent (nm : String) (r : String) : Component :=
  { stubComponent nm with requires := [r] }

/-- A stub whose `train` raises. -/
def failTrainComponent (nm : String) (e : PyErr) : Component :=
  { stubComponent nm with train := fun d _ _ => (d, .error e) }

/-- A stub whose `persist` contributes a fixed mapping. -/
def persistComponent (nm : String) (u : Ctx) : Component :=
  { stubComponent nm with persist := fun _ => some u }

/-- A stub whose `process` writes one message output attribute and marks
it as an output property. -/
def writeComponent (nm k : String) (v : Val) : Component :=
  { stubComponent nm with
      process := fun m _ =>
        ⟨m.text, dictSet m.output k v, k :: m.output_properties, m.time⟩ }

/-- A stub whose `provide_context` raises `MissingArgumentError`. -/
def provideFailComponent (nm m : String) : Component :=
  { stubComponent nm with provide_context := .error (.missingArgument m) }

/-- A stub whose `train` mutates its working copy of the corpus. -/
def mutateComponent (nm : String) : Component :=
  { stubComponent nm with
      train := fun d _ _ => ({ d with content := Val.str "mutated" }, .ok none) }

/-- A builder resolving every name to the plain stub of that name. -/
def stubBuilder : ComponentBuilder :=
  { create_component := fun n _ => stubComponent n
    load_component := fun n _ _ _ _ => stubComponent n }

/-- A fixed configuration for concrete witnesses. -/
def stubConfig : Config := { language := "zh", pipeline := [] }


-- ### Association-list lemmas ###

theorem dictGet_dictSet (d : Ctx) (k : String) (v : Val) (q : String) :
    dictGet (dictSet d k v) q = if q = k then some v else dictGet d q := by
  induction d with
  | nil =>
    by_cases hqk : q = k
    · subst hqk; simp [dictSet, dictGet]
    · simp [dictSet, dictGet, hqk, Ne.symm hqk]
  | cons p rest ih =>
    by_cases hpk : p.1 = k
    · by_cases hqk : q = k
      · subst hqk; simp [dictSet, dictGet, hpk]
      · simp [dictSet, dictGet, hpk, hqk, Ne.symm hqk]
    · by_cases hpq : p.1 = q
      · have hqk : ¬q = k := fun h => hpk (hpq.trans h)
        simp [dictSet, dictGet, hpk, hpq, hqk]
      · simp [dictSet, dictGet, hpk, hpq, ih]

theorem isSome_dictGet_dictUpdate (d u : Ctx) (k : String)
    (h : (dictGet d k).isSome) : (dictGet (dictUpdate d u) k).isSome := by
  induction u generalizing d with
  | nil => simpa [dictUpdate] using h
  | cons p rest ih =>
    have hstep : (dictGet (dictSet d p.1 p.2) k).isSome := by
      rw [dictGet_dictSet]
      by_cases hk : k = p.1 <;> simp [hk, h]
    simpa [dictUpdate, List.foldl_cons] using ih (dictSet d p.1 p.2) hstep

theorem dictGet_dictUpdate_of_not_mem (d u : Ctx) (k : String)
    (h : ∀ p ∈ u, p.1 ≠ k) : dictGet (dictUpdate d u) k = dictGet d k := by
  induction u generalizing d with
  | nil => simp [dictUpdate]
  | cons p rest ih =>
    have hpk : p.1 ≠ k := h p (List.mem_cons_self p rest)
    have hrest : ∀ q ∈ rest, q.1 ≠ k := fun q hq => h q (List.mem_cons_of_mem p hq)
    have : dictGet (dictSet d p.1 p.2) k = dictGet d k := by
      rw [dictGet_dictSet, if_neg (fun hk => hpk hk.symm)]
    simpa [dictUpdate, List.foldl_cons, this] using ih (dictSet d p.1 p.2) hrest

theorem dictGet_dictUpdate_of_mem (d u : Ctx) (k : String) (v : Val)
    (hnd : nodupKeys u) (h : dictGet u k = some v) :
    dictGet (dictUpdate d u) k = some v := by
  induction u generalizing d with
  | nil => simp [dictGet] at h
  | cons p rest ih =>
    rw [nodupKeys, List.pairwise_cons] at hnd
    by_cases hpk : p.1 = k
    · have hv : v = p.2 := by simpa [dictGet, hpk] using h.symm
      have hrest : ∀ q ∈ rest, q.1 ≠ k := fun q hq hk =>
        hnd.1 q hq (hpk.trans hk.symm)
      rw [dictUpdate, List.foldl_cons]
      have := dictGet_dictUpdate_of_not_mem (dictSet d p.1 p.2) rest k hrest
      rw [dictUpdate] at this
      rw [this, dictGet_dictSet, if_pos hpk.symm, hv]
    · have hr : dictGet rest k = some v := by simpa [dictGet, hpk] using h
      simpa [dictUpdate, List.foldl_cons] using
        ih (dictSet d p.1 p.2) hnd.2 hr

theorem mem_dictSet (d : Ctx) (k : String) (v : Val) (q : String × Val)
    (h : q ∈ dictSet d k v) : q.1 = k ∨ q ∈ d := by
  induction d with
  | nil =>
    simp [dictSet] at h
    subst h; exact Or.inl rfl
  | cons p rest ih =>
    by_cases hpk : p.1 = k
    · simp [dictSet, hpk] at h
      rcases h with h | h
      · subst h; exact Or.inl rfl
      · exact Or.inr (List.mem_cons_of_mem p h)
    · simp [dictSet, hpk] at h
      rcases h with h | h
      · exact Or.inr (by rw [h]; exact List.mem_cons_self p rest)
      · rcases ih h with h1 | h1
        · exact Or.inl h1
        · exact Or.inr (List.mem_cons_of_mem p h1)

theorem nodupKeys_dictSet (d : Ctx) (k : String) (v : Val)
    (h : nodupKeys d) : nodupKeys (dictSet d k v) := by
  induction d with
  | nil => simp [dictSet, nodupKeys]
  | cons p rest ih =>
    rw [nodupKeys, List.pairwise_cons] at h
    by_cases hpk : p.1 = k
    · rw [dictSet, if_pos hpk, nodupKeys, List.pairwise_cons]
      exact ⟨fun q hq => hpk ▸ h.1 q hq, h.2⟩
    · rw [dictSet, if_neg hpk, nodupKeys, List.pairwise_cons]
      refine ⟨fun q hq => ?_, ih h.2⟩
      rcases mem_dictSet rest k v q hq with h1 | h1
      · exact h1 ▸ hpk
      · exact h.1 q h1

theorem nodupKeys_dictUpdate (d u : Ctx) (h : nodupKeys d) :
    nodupKeys (dictUpdate d u) := by
  induction u generalizing d with
  | nil => simpa [dictUpdate] using h
  | cons p rest ih =>
    simpa [dictUpdate, List.foldl_cons] using
      ih (dictSet d p.1 p.2) (nodupKeys_dictSet d p.1 p.2 h)

theorem dictGet_filter_keys (d : Ctx) (props : List String) (k : String) :
    dictGet (d.filter (fun p => decide (p.1 ∈ props))) k =
      if k ∈ props then dictGet d k else none := by
  induction d with
  | nil => simp [dictGet]
  | cons p rest ih =>
    by_cases hmem : p.1 ∈ props
    · by_cases hpk : p.1 = k
      · subst hpk
        simp [List.filter_cons, hmem, dictGet, ih]
      · simp [List.filter_cons, hmem, dictGet, hpk, ih]
    · by_cases hpk : p.1 = k
      · subst hpk
        simp [List.filter_cons, hmem, dictGet, ih]
      · simp [List.filter_cons, hmem, dictGet, hpk, ih]

theorem nodupKeys_filter (d : Ctx) (pred : String × Val → Bool)
    (h : nodupKeys d) : nodupKeys (d.filter pred) :=
  List.Pairwise.sublist (List.filter_sublist d) h

-- ### Claim theorems ###

/-- C1: For every pipeline (including non-empty ones), calling
`Interpreter.parse` with an empty or absent text returns exactly the
mapping `intent = (name "", confidence 0.0), entities = [], text = ""`
and invokes `process` on zero components. -/
theorem c1_parse_empty_short_circuit (i : InterpreterState)
    (text : Option String) (time : Option Val)
    (h : textIsEmpty text = true) :
    Interpreter.parse i text time =
      ([("intent", Val.dict [("name", Val.str ""), ("confidence", Val.num 0)]),
        ("entities", Val.list []),
        ("text", Val.str "")], []) := by
  rw [Interpreter.parse, if_pos h]
  rfl

/-- Witness for C1: an interpreter with a non-empty pipeline whose single
component would write `intent` if invoked; on empty text it is not. -/
theorem c1_parse_empty_short_circuit_witness :
    textIsEmpty (some "") = true ∧
    Interpreter.parse
        ⟨[writeComponent "A" "intent" (Val.str "greet")], [], none⟩
        (some "") none =
      ([("intent", Val.dict [("name", Val.str ""), ("confidence", Val.num 0)]),
        ("entities", Val.list []),
        ("text", Val.str "")], []) :=
  ⟨rfl, c1_parse_empty_short_circuit
    ⟨[writeComponent "A" "intent" (Val.str "greet")], [], none⟩ (some "") none rfl⟩

/-- C6 counterexample: `Trainer.persist` called on a trainer that was
never trained (`training_data` is still `None`) does not fail with any
error — it returns the normally assembled metadata and directory.  The
source has no state check and no `InvalidStateError` at all; line 105
(`if self.training_data:`) merely skips the corpus merge. -/
theorem c6_counterexample_persist_untrained_succeeds :
    Trainer.persist ⟨⟨"zh", ["A"]⟩, false, none, [stubComponent "A"]⟩
      "root" none none "20170101-000000" =
    (⟨[("language", Val.str "zh"), ("pipeline", Val.list [Val.str "A"])],
      "root/default/model_20170101-000000"⟩,
     "root/default/model_20170101-000000") := rfl

/-- C6 (amended): calling `Trainer.persist` before `train` succeeds —
it behaves exactly like persisting a trained trainer whose corpus
persists no keys of its own; the corpus merge is simply skipped and no
`InvalidStateError` is raised (none exists in the code). -/
theorem c6_persist_before_train_no_error (t : TrainerState)
    (ht : t.training_data = none) (td : TData)
    (htd : ∀ dir, td.persist dir = [])
    (path : String) (project_name fixed_model_name : Option String)
    (timestamp : String) :
    Trainer.persist t path project_name fixed_model_name timestamp =
      Trainer.persist { t with training_data := some td }
        path project_name fixed_model_name timestamp := by
  simp [Trainer.persist, ht, htd, dictUpdate]

/-- Witness for C6's amended theorem at a concrete untrained trainer. -/
theorem c6_persist_before_train_no_error_witness :
    (⟨⟨"zh", ["A"]⟩, false, none, [stubComponent "A"]⟩ : TrainerState).training_data
        = none ∧
    Trainer.persist ⟨⟨"zh", ["A"]⟩, false, none, [stubComponent "A"]⟩
        "p" none none "ts" =
      Trainer.persist ⟨⟨"zh", ["A"]⟩, false, some ⟨Val.str "c", fun _ => []⟩,
          [stubComponent "A"]⟩ "p" none none "ts" :=
  ⟨rfl, c6_persist_before_train_no_error
    ⟨⟨"zh", ["A"]⟩, false, none, [stubComponent "A"]⟩ rfl
    ⟨Val.str "c", fun _ => []⟩ (fun _ => rfl) "p" none none "ts"⟩

theorem dictGet_foldl_persistStep_of_not_mem (cs : List Component)
    (dn : String) (m : Ctx) (k : String)
    (h : ∀ c ∈ cs, ∀ u, c.persist dn = some u → ∀ p ∈ u, p.1 ≠ k) :
    dictGet (cs.foldl (persistStep dn) m) k = dictGet m k := by
  induction cs generalizing m with
  | nil => simp
  | cons c rest ih =>
    have hc := h c (List.mem_cons_self c rest)
    have hrest : ∀ c' ∈ rest, ∀ u, c'.persist dn = some u → ∀ p ∈ u, p.1 ≠ k :=
      fun c' hc' => h c' (List.mem_cons_of_mem c hc')
    rw [List.foldl_cons, ih _ hrest]
    cases hu : c.persist dn with
    | none => simp [persistStep, hu]
    | some u =>
      simp only [persistStep, hu]
      exact dictGet_dictUpdate_of_not_mem m u k (hc u hu)

/-- C10: the metadata record of `Trainer.persist` is assembled by
successive dict-update merges — base record, then the corpus's persisted
keys, then each component's `persist` result in pipeline order — so a
later contribution sharing a key with an earlier one overwrites it,
including the reserved `language` and `pipeline` entries: (1) a key
written by the last component's `persist` ends up with that component's
value whatever was there before; (2) a key written by the corpus and not
mentioned by any component keeps the corpus's value, overwriting the
base record. -/
theorem c10_persist_last_update_wins (t : TrainerState) (path : String)
    (project_name fixed_model_name : Option String) (timestamp : String)
    (k : String) (v : Val) :
    (∀ cs c u, t.pipeline = cs ++ [c] →
      c.persist (Trainer.persist t path project_name fixed_model_name timestamp).2
          = some u →
      nodupKeys u → dictGet u k = some v →
      dictGet (Trainer.persist t path project_name fixed_model_name
        timestamp).1.record k = some v) ∧
    (∀ td, t.training_data = some td →
      nodupKeys (td.persist
        (Trainer.persist t path project_name fixed_model_name timestamp).2) →
      dictGet (td.persist
        (Trainer.persist t path project_name fixed_model_name timestamp).2) k
          = some v →
      (∀ c ∈ t.pipeline, ∀ u,
        c.persist (Trainer.persist t path project_name fixed_model_name
          timestamp).2 = some u → ∀ p ∈ u, p.1 ≠ k) →
      dictGet (Trainer.persist t path project_name fixed_model_name
        timestamp).1.record k = some v) := by
  constructor
  · intro cs c u hpipe hcp hnd hget
    simp only [Trainer.persist] at hcp ⊢
    rw [hpipe, List.foldl_append, List.foldl_cons, List.foldl_nil]
    simp only [persistStep, hcp]
    exact dictGet_dictUpdate_of_mem _ u k v hnd hget
  · intro td ht hnd hget hnone
    simp only [Trainer.persist] at hnd hget hnone ⊢
    rw [dictGet_foldl_persistStep_of_not_mem _ _ _ _ hnone]
    rw [ht]
    exact dictGet_dictUpdate_of_mem _ _ k v hnd hget

theorem initContext_of_none (cs : List Component) (ctx : Ctx)
    (h : ∀ c ∈ cs, c.provide_context = Except.ok none) :
    initContext cs ctx = Except.ok ctx := by
  induction cs with
  | nil => rfl
  | cons c rest ih =>
    rw [initContext, h c (List.mem_cons_self c rest)]
    exact ih fun c' hc' => h c' (List.mem_cons_of_mem c hc')

theorem validate_arguments_of_no_requires (cs : List Component)
    (provided : List String) (h : ∀ c ∈ cs, c.requires = []) :
    validate_arguments cs provided = Except.ok () := by
  induction cs generalizing provided with
  | nil => rfl
  | cons c rest ih =>
    rw [validate_arguments, h c (List.mem_cons_self c rest)]
    exact ih _ fun c' hc' => h c' (List.mem_cons_of_mem c hc')

theorem trainLoop_const_ctx (cfg : Config) (cs : List Component)
    (hts : ∀ c ∈ cs, ∀ d ctx, (c.train d cfg ctx).2 = Except.ok none) :
    ∀ (done : List Component) (h : Heap) (wref : Nat) (ctx : Ctx),
      ∃ events h2, trainLoop cfg cs done h wref ctx = (events, Except.ok (ctx, h2)) ∧
        ∀ e ∈ events, ∀ c r dt cctx, e = Event.trainCall c r dt cctx → cctx = ctx := by
  induction cs with
  | nil =>
    intro done h wref ctx
    exact ⟨[], h, rfl, by simp⟩
  | cons c rest ih =>
    intro done h wref ctx
    have hc := hts c (List.mem_cons_self c rest) (h wref) ctx
    obtain ⟨events, h2, hres, hctx⟩ :=
      ih (fun c' hc' => hts c' (List.mem_cons_of_mem c hc'))
        (done ++ [c]) (Function.update h wref (c.train (h wref) cfg ctx).1) wref ctx
    refine ⟨Event.prepCall c done ctx :: Event.trainCall c wref (h wref) ctx ::
      events, h2, ?_, ?_⟩
    · rw [trainLoop]
      simp only [hc, applyUpdates, hres]
      rfl
    · intro e he c' r dt cctx heq
      simp only [List.mem_cons] at he
      rcases he with he | he | he
      · rw [he] at heq; cases heq
      · rw [he] at heq
        injection heq with h1 h2 h3 h4
        exact h4.symm
      · exact hctx e he c' r dt cctx heq

/-- C3: context accumulation is a left fold with last-writer-wins
overwrite: with component A providing `x = 1` followed by B providing
`x = 2, y = 3` (and the remaining components providing nothing and no
train step contributing updates), training succeeds and every
component's `train` — in particular every component after B — is invoked
with exactly the context `x = 2, y = 3`, which is also the final context
handed to the produced Interpreter. -/
theorem c3_context_left_fold_overwrite
    (A B : Component) (rest : List Component) (t : TrainerState)
    (hA : A.provide_context = Except.ok (some [("x", Val.num 1)]))
    (hB : B.provide_context = Except.ok (some [("x", Val.num 2), ("y", Val.num 3)]))
    (hrest : ∀ c ∈ rest, c.provide_context = Except.ok none)
    (hpipe : t.pipeline = A :: B :: rest)
    (hval : t.skip_validation = true ∨ ∀ c ∈ t.pipeline, c.requires = [])
    (htrain : ∀ c ∈ t.pipeline, ∀ d ctx, (c.train d t.config ctx).2 = Except.ok none)
    (h : Heap) (dataRef wref : Nat) :
    ∃ events res, Trainer.train t h dataRef wref = (events, Except.ok res) ∧
      res.2.1.context = [("x", Val.num 2), ("y", Val.num 3)] ∧
      ∀ e ∈ events, ∀ c r dt cctx, e = Event.trainCall c r dt cctx →
        cctx = [("x", Val.num 2), ("y", Val.num 3)] := by
  have hinit : initContext t.pipeline [] =
      Except.ok [("x", Val.num 2), ("y", Val.num 3)] := by
    rw [hpipe]
    simp only [initContext, hA, hB]
    have h1 : applyUpdates ([] : Ctx) (some [("x", Val.num 1)]) =
        [("x", Val.num 1)] := rfl
    have h2 : applyUpdates [("x", Val.num 1)]
        (some [("x", Val.num 2), ("y", Val.num 3)]) =
        [("x", Val.num 2), ("y", Val.num 3)] := rfl
    rw [h1, h2]
    exact initContext_of_none rest _ hrest
  obtain ⟨events, h2, hloop, hctx⟩ :=
    trainLoop_const_ctx t.config t.pipeline
      (fun c hc => htrain c hc) []
      (Function.update h wref (h dataRef)) wref
      [("x", Val.num 2), ("y", Val.num 3)]
  have hvalok : (if t.skip_validation then Except.ok ()
      else validate_arguments t.pipeline
        (dictKeys [("x", Val.num 2), ("y", Val.num 3)])) = Except.ok () := by
    rcases hval with hv | hv
    · rw [hv]; rfl
    · rcases ht : t.skip_validation
      · simp only [Bool.false_eq_true, if_false]
        exact validate_arguments_of_no_requires _ _ hv
      · rfl
  refine ⟨events, ({ t with training_data := some (h dataRef) },
    ⟨t.pipeline, [("x", Val.num 2), ("y", Val.num 3)], none⟩, h2), ?_, rfl, hctx⟩
  rw [Trainer.train, hinit]
  simp only [hvalok, hloop]

/-- Witness for C3 at a concrete three-component pipeline A, B, C. -/
theorem c3_context_left_fold_overwrite_witness :
    ∃ events res,
      Trainer.train ⟨⟨"zh", []⟩, true, none,
          [ctxComponent "A" [("x", Val.num 1)],
           ctxComponent "B" [("x", Val.num 2), ("y", Val.num 3)],
           stubComponent "C"]⟩ stubHeap 0 1 = (events, Except.ok res) ∧
      res.2.1.context = [("x", Val.num 2), ("y", Val.num 3)] ∧
      ∀ e ∈ events, ∀ c r dt cctx, e = Event.trainCall c r dt cctx →
        cctx = [("x", Val.num 2), ("y", Val.num 3)] :=
  c3_context_left_fold_overwrite
    (ctxComponent "A" [("x", Val.num 1)])
    (ctxComponent "B" [("x", Val.num 2), ("y", Val.num 3)])
    [stubComponent "C"]
    ⟨⟨"zh", []⟩, true, none,
      [ctxComponent "A" [("x", Val.num 1)],
       ctxComponent "B" [("x", Val.num 2), ("y", Val.num 3)],
       stubComponent "C"]⟩
    rfl rfl
    (by intro c hc; simp only [List.mem_singleton] at hc; subst hc; rfl)
    rfl (Or.inl rfl)
    (by
      intro c hc d ctx
      simp only [List.mem_cons, List.not_mem_nil, or_false] at hc
      rcases hc with rfl | rfl | rfl <;> rfl)
    stubHeap 0 1

theorem filterMap_str_map {α : Type} (f : α → String) (l : List α) :
    (l.map (fun a => Val.str (f a))).filterMap
      (fun v => match v with | Val.str s => some s | _ => none) = l.map f := by
  induction l with
  | nil => rfl
  | cons a rest ih => simp [ih]

theorem createLoop_ok (b : ComponentBuilder) (md : Metadata) (cfg : Config)
    (hb : ∀ n ctx, ∃ u,
      (b.load_component n md.model_dir md cfg ctx).provide_context = Except.ok u)
    (hname : ∀ n ctx, (b.load_component n md.model_dir md cfg ctx).name = n) :
    ∀ (names : List String) (ctx : Ctx) (acc : List Component),
      ∃ pl ctxf, createLoop b md cfg names ctx acc = Except.ok (acc ++ pl, ctxf) ∧
        pl.map Component.name = names := by
  intro names
  induction names with
  | nil => intro ctx acc; exact ⟨[], ctx, by simp [createLoop], rfl⟩
  | cons n rest ih =>
    intro ctx acc
    obtain ⟨u, hu⟩ := hb n ctx
    obtain ⟨pl, ctxf, hres, hmap⟩ := ih (applyUpdates ctx u)
      (acc ++ [b.load_component n md.model_dir md cfg ctx])
    refine ⟨b.load_component n md.model_dir md cfg ctx :: pl, ctxf, ?_, ?_⟩
    · rw [createLoop]
      simp only [hu, hres]
      simp
    · simp [hmap, hname n ctx]

/-- C4 counterexample: the claim fails as universally stated, because a
component's `persist` mapping is merged after the base record and may
overwrite the reserved `pipeline` entry (see C10): with a single
component of identifier "A" whose `persist` returns a mapping holding
the key `pipeline`, the persisted metadata's `pipeline` entry no longer
lists the component identifiers. -/
theorem c4_counterexample_persist_can_shadow_pipeline :
    Metadata.getPipeline
      (Trainer.persist ⟨⟨"zh", []⟩, false, none,
        [persistComponent "A" [("pipeline", Val.str "bogus")]]⟩
        "p" none none "ts").1 ≠
    ([persistComponent "A" [("pipeline", Val.str "bogus")]]).map
      Component.module_path := by
  intro h
  have h0 : Metadata.getPipeline
      (Trainer.persist ⟨⟨"zh", []⟩, false, none,
        [persistComponent "A" [("pipeline", Val.str "bogus")]]⟩
        "p" none none "ts").1 = [] := rfl
  have h1 : ([persistComponent "A" [("pipeline", Val.str "bogus")]]).map
      Component.module_path = ["A"] := rfl
  rw [h0, h1] at h
  exact absurd h (by decide)

/-- C4 (amended): provided neither the corpus's persisted keys nor any
component's `persist` mapping contains the key `pipeline`, pipeline
order is preserved end-to-end: for a trainer whose pipeline was built
from the ordered list of configured component names, `Trainer.persist`
writes a metadata record whose `pipeline` entry lists the components'
identifiers in exactly pipeline order and length; `Interpreter.create`
on that metadata (with a builder resolving each identifier to a
component of that name) reconstructs one component per identifier in the
same order; and `parse` on non-empty text invokes `process` on them in
exactly that order. -/
theorem c4_pipeline_order_preserved
    (cfg : Config) (b : ComponentBuilder) (t : TrainerState)
    (hpipe : t.pipeline = cfg.pipeline.map (fun n => b.create_component n cfg))
    (path : String) (project_name fixed_model_name : Option String)
    (timestamp : String) (md : Metadata) (dn : String)
    (hmd : Trainer.persist t path project_name fixed_model_name timestamp = (md, dn))
    (hcorp : ∀ td, t.training_data = some td →
      ∀ p ∈ td.persist dn, p.1 ≠ "pipeline")
    (hcomp : ∀ c ∈ t.pipeline, ∀ u, c.persist dn = some u →
      ∀ p ∈ u, p.1 ≠ "pipeline")
    (cfg2 : Config) (b2 : ComponentBuilder) (req_ok : String → Bool)
    (hb2 : ∀ n ctx, ∃ u,
      (b2.load_component n md.model_dir md cfg2 ctx).provide_context = Except.ok u)
    (hname : ∀ n ctx, (b2.load_component n md.model_dir md cfg2 ctx).name = n) :
    Metadata.getPipeline md = t.pipeline.map Component.module_path ∧
    ∃ interp, Interpreter.create md cfg2 b2 true req_ok = Except.ok interp ∧
      interp.pipeline.map Component.name = t.pipeline.map Component.module_path ∧
      ∀ (s : String), s ≠ "" → ∀ time,
        (Interpreter.parse interp (some s) time).2.map eventComponentName =
          t.pipeline.map Component.module_path := by
  have hmd1 : md = (Trainer.persist t path project_name fixed_model_name
      timestamp).1 := by rw [hmd]
  have hdn : dn = (Trainer.persist t path project_name fixed_model_name
      timestamp).2 := by rw [hmd]
  have hrecget : dictGet md.record "pipeline" =
      some (Val.list (t.pipeline.map (fun c => Val.str c.module_path))) := by
    rw [hmd1]
    rw [hdn] at hcomp hcorp
    simp only [Trainer.persist] at hcomp hcorp ⊢
    rw [dictGet_foldl_persistStep_of_not_mem _ _ _ _ hcomp]
    cases ht : t.training_data with
    | none => rfl
    | some td =>
      rw [dictGet_dictUpdate_of_not_mem _ _ _ (hcorp td ht)]
      rfl
  have hgp : Metadata.getPipeline md =
      t.pipeline.map Component.module_path := by
    rw [Metadata.getPipeline, hrecget]
    exact filterMap_str_map Component.module_path t.pipeline
  refine ⟨hgp, ?_⟩
  obtain ⟨pl, ctxf, hres, hmap⟩ := createLoop_ok b2 md cfg2 hb2 hname
    (Metadata.getPipeline md) [] []
  refine ⟨⟨pl, ctxf, some md⟩, ?_, ?_, ?_⟩
  · rw [Interpreter.create]
    simp only [if_true, hres, List.nil_append]
  · rw [hmap, hgp]
  · intro s hs time
    have hne : textIsEmpty (some s) = false := by
      simp only [textIsEmpty]
      cases h : s.isEmpty
      · rfl
      · exact absurd ((String.isEmpty_iff s).mp h) hs
    rw [Interpreter.parse, if_neg (by rw [hne]; exact Bool.false_ne_true)]
    simp only [List.map_map]
    rw [show (eventComponentName ∘ fun c => Event.processCall c ctxf) =
      Component.name from rfl]
    rw [hmap, hgp]

/-- Witness for C4's amended theorem: a trainer built from names
`A`, `B` via the stub builder, persisted and reloaded. -/
theorem c4_pipeline_order_preserved_witness :
    Metadata.getPipeline
        (Trainer.persist (Trainer.make ⟨"zh", ["A", "B"]⟩ stubBuilder false)
          "p" none none "ts").1 =
      (Trainer.make ⟨"zh", ["A", "B"]⟩ stubBuilder false).pipeline.map
        Component.module_path ∧
    ∃ interp,
      Interpreter.create
          (Trainer.persist (Trainer.make ⟨"zh", ["A", "B"]⟩ stubBuilder false)
            "p" none none "ts").1
          ⟨"zh", []⟩ stubBuilder true (fun _ => true) = Except.ok interp ∧
      interp.pipeline.map Component.name =
        (Trainer.make ⟨"zh", ["A", "B"]⟩ stubBuilder false).pipeline.map
          Component.module_path ∧
      ∀ (s : String), s ≠ "" → ∀ time,
        (Interpreter.parse interp (some s) time).2.map eventComponentName =
          (Trainer.make ⟨"zh", ["A", "B"]⟩ stubBuilder false).pipeline.map
            Component.module_path :=
  c4_pipeline_order_preserved ⟨"zh", ["A", "B"]⟩ stubBuilder
    (Trainer.make ⟨"zh", ["A", "B"]⟩ stubBuilder false) rfl
    "p" none none "ts"
    (Trainer.persist (Trainer.make ⟨"zh", ["A", "B"]⟩ stubBuilder false)
      "p" none none "ts").1
    (Trainer.persist (Trainer.make ⟨"zh", ["A", "B"]⟩ stubBuilder false)
      "p" none none "ts").2
    rfl
    (fun td h => nomatch h)
    (by
      intro c hc u hu
      simp only [Trainer.make, List.map_cons, List.map_nil, List.mem_cons,
        List.not_mem_nil, or_false] at hc
      rcases hc with rfl | rfl <;> exact nomatch hu)
    ⟨"zh", []⟩ stubBuilder (fun _ => true)
    (fun n ctx => ⟨none, rfl⟩)
    (fun n ctx => rfl)

theorem validate_arguments_missing (pre : List Component) (c : Component)
    (post : List Component) (r : String) (hr : r ∈ c.requires) :
    ∀ provided, ¬r ∈ provided → (∀ c' ∈ pre, ¬r ∈ c'.provides) →
    ∃ msg, validate_arguments (pre ++ c :: post) provided =
      Except.error (PyErr.missingArgument msg) := by
  induction pre with
  | nil =>
    intro provided hp _
    rw [List.nil_append, validate_arguments]
    cases hf : c.requires.find? (fun x => !provided.contains x) with
    | some r0 => exact ⟨r0, rfl⟩
    | none =>
      exfalso
      have := List.find?_eq_none.mp hf r hr
      simp at this
      exact hp this
  | cons c0 pre' ih =>
    intro provided hp hpre
    rw [List.cons_append, validate_arguments]
    cases hf : c0.requires.find? (fun x => !provided.contains x) with
    | some r0 => exact ⟨r0, rfl⟩
    | none =>
      refine ih _ ?_ fun c' hc' => hpre c' (List.mem_cons_of_mem c0 hc')
      simp only [List.mem_append]
      rintro (h | h)
      · exact hp h
      · exact hpre c0 (List.mem_cons_self c0 pre') h

theorem trainLoop_error_from_component (cfg : Config) :
    ∀ (cs done : List Component) (h : Heap) (wref : Nat) (ctx : Ctx)
      (events : List Event) (e : PyErr),
      trainLoop cfg cs done h wref ctx = (events, Except.error e) →
      ∃ pre c post, cs = pre ++ c :: post ∧ ∃ dt cctx,
        events ≠ [] ∧
        events.getLast? = some (Event.trainCall c wref dt cctx) ∧
        (c.train dt cfg cctx).2 = Except.error e := by
  intro cs
  induction cs with
  | nil =>
    intro done h wref ctx events e heq
    rw [trainLoop] at heq
    cases heq
  | cons c rest ih =>
    intro done h wref ctx events e heq
    rw [trainLoop] at heq
    cases htr : (c.train (h wref) cfg ctx).2 with
    | error e0 =>
      rw [htr] at heq
      simp only [] at heq
      injection heq with h1 h2
      injection h2 with h2
      refine ⟨[], c, rest, rfl, h wref, ctx, ?_, ?_, ?_⟩
      · rw [← h1]; simp
      · rw [← h1]; rfl
      · rw [htr, h2]
    | ok upd =>
      rw [htr] at heq
      simp only [] at heq
      injection heq with h1 h2
      obtain ⟨pre', c', post', hcs, dt, cctx, hne, hlast, htrain⟩ :=
        ih (done ++ [c]) (Function.update h wref (c.train (h wref) cfg ctx).1)
          wref (applyUpdates ctx upd)
          (trainLoop cfg rest (done ++ [c])
            (Function.update h wref (c.train (h wref) cfg ctx).1) wref
            (applyUpdates ctx upd)).1 e (by rw [← h2])
      refine ⟨c :: pre', c', post', by rw [hcs]; rfl, dt, cctx, ?_, ?_, htrain⟩
      · rw [← h1]; simp
      · rw [← h1, List.getLast?_append_of_ne_nil _ hne, hlast]

/-- C5: when validation is enabled, training a pipeline containing a
component whose `train` requires a context key supplied neither by the
accumulated provide-context phase nor by any predecessor raises
`MissingArgumentError` with an empty call trace — no component's
`train` (nor `prepare_partial_processing`) is invoked; when the trainer
was built with `skip_validation = True`, no such pre-check runs, and any
training failure is one raised by some component's own `train` call,
which the trace shows was reached. -/
theorem c5_validation_gates_training
    (t : TrainerState) (h : Heap) (dataRef wref : Nat)
    (ctx0 : Ctx) (hinit : initContext t.pipeline [] = Except.ok ctx0) :
    (t.skip_validation = false →
      ∀ pre c post r, t.pipeline = pre ++ c :: post → r ∈ c.requires →
        ¬r ∈ dictKeys ctx0 → (∀ c' ∈ pre, ¬r ∈ c'.provides) →
        ∃ msg, Trainer.train t h dataRef wref =
          ([], Except.error (PyErr.missingArgument msg))) ∧
    (t.skip_validation = true →
      ∀ events e, Trainer.train t h dataRef wref = (events, Except.error e) →
        ∃ pre c post, t.pipeline = pre ++ c :: post ∧ ∃ dt cctx,
          events ≠ [] ∧
          events.getLast? = some (Event.trainCall c wref dt cctx) ∧
          (c.train dt t.config cctx).2 = Except.error e) := by
  constructor
  · intro hskip pre c post r hpipe hr hctx hpre
    obtain ⟨msg, hva⟩ :=
      validate_arguments_missing pre c post r hr (dictKeys ctx0) hctx hpre
    refine ⟨msg, ?_⟩
    rw [Trainer.train, hinit]
    rw [hskip]
    simp only [Bool.false_eq_true, if_false]
    rw [← hpipe] at hva
    rw [hva]
  · intro hskip events e heq
    rw [Trainer.train, hinit, hskip] at heq
    simp only [if_true] at heq
    cases hloop : trainLoop t.config t.pipeline []
        (Function.update h wref (h dataRef)) wref ctx0 with
    | mk evs res =>
      rw [hloop] at heq
      cases res with
      | error e0 =>
        injection heq with h1 h2
        injection h2 with h2
        refine trainLoop_error_from_component t.config t.pipeline []
          (Function.update h wref (h dataRef)) wref ctx0 events e ?_
        rw [hloop, h1, h2]
      | ok pair => cases heq

/-- Witness for C5: a validated one-component pipeline requiring an
unsupplied `vocab` key fails with an empty trace, and a skipping trainer
whose component's own `train` raises surfaces that error from the
component's recorded `train` call. -/
theorem c5_validation_gates_training_witness :
    (∃ msg, Trainer.train ⟨⟨"zh", []⟩, false, none, [needsComponent "A" "vocab"]⟩
        stubHeap 0 1 = ([], Except.error (PyErr.missingArgument msg))) ∧
    (∃ pre c post,
      ([failTrainComponent "A" (PyErr.exception "boom")] : List Component) =
        pre ++ c :: post ∧
      ∃ dt cctx,
        ([Event.prepCall (failTrainComponent "A" (PyErr.exception "boom")) [] [],
          Event.trainCall (failTrainComponent "A" (PyErr.exception "boom")) 1
            stubData []] : List Event) ≠ [] ∧
        ([Event.prepCall (failTrainComponent "A" (PyErr.exception "boom")) [] [],
          Event.trainCall (failTrainComponent "A" (PyErr.exception "boom")) 1
            stubData []] : List Event).getLast? =
          some (Event.trainCall c 1 dt cctx) ∧
        (c.train dt ⟨"zh", []⟩ cctx).2 = Except.error (PyErr.exception "boom")) :=
  ⟨(c5_validation_gates_training
      ⟨⟨"zh", []⟩, false, none, [needsComponent "A" "vocab"]⟩
      stubHeap 0 1 [] rfl).1 rfl
      [] (needsComponent "A" "vocab") [] "vocab" rfl
      (List.mem_singleton.mpr rfl)
      (by simp [dictKeys])
      (fun c' hc' => (List.not_mem_nil c' hc').elim),
   (c5_validation_gates_training
      ⟨⟨"zh", []⟩, true, none, [failTrainComponent "A" (PyErr.exception "boom")]⟩
      stubHeap 0 1 [] rfl).2 rfl
      [Event.prepCall (failTrainComponent "A" (PyErr.exception "boom")) [] [],
       Event.trainCall (failTrainComponent "A" (PyErr.exception "boom")) 1
         stubData []]
      (PyErr.exception "boom") rfl⟩

theorem createLoop_wraps_missing (b : ComponentBuilder) (md : Metadata)
    (cfg : Config) (nc cname m : String)
    (hc : ∀ ctx, (b.load_component nc md.model_dir md cfg ctx).name = cname ∧
      (b.load_component nc md.model_dir md cfg ctx).provide_context =
        Except.error (PyErr.missingArgument m)) :
    ∀ (pre : List String),
      (∀ n ∈ pre, ∀ ctx, ∃ u,
        (b.load_component n md.model_dir md cfg ctx).provide_context =
          Except.ok u) →
      ∀ post ctx acc,
        createLoop b md cfg (pre ++ nc :: post) ctx acc =
          Except.error (PyErr.exception
            ("Failed to initialize component " ++ cname ++ ". " ++ m)) := by
  intro pre
  induction pre with
  | nil =>
    intro _ post ctx acc
    rw [List.nil_append, createLoop]
    simp only [(hc ctx).2, (hc ctx).1]
  | cons n0 pre' ih =>
    intro hpre post ctx acc
    rw [List.cons_append, createLoop]
    obtain ⟨u, hu⟩ := hpre n0 (List.mem_cons_self n0 pre') ctx
    simp only [hu]
    exact ih (fun n hn => hpre n (List.mem_cons_of_mem n0 hn)) post _ _

/-- C9: if during pipeline reconstruction in `Interpreter.create` (and
hence in `Interpreter.load`) a component's `provide_context` raises
`MissingArgumentError`, the failure is re-raised to the caller as a
wrapped exception (the spec's ComponentInitializationError) whose
payload carries the offending component's name together with the
original cause. -/
theorem c9_create_wraps_provide_context_failure
    (md : Metadata) (cfg : Config) (b : ComponentBuilder)
    (req_ok : String → Bool) (skip_valdation : Bool)
    (hreq : skip_valdation = true ∨
      validate_requirements req_ok md.getPipeline = Except.ok ())
    (pre : List String) (nc : String) (post : List String)
    (hids : md.getPipeline = pre ++ nc :: post)
    (hpre : ∀ n ∈ pre, ∀ ctx, ∃ u,
      (b.load_component n md.model_dir md cfg ctx).provide_context = Except.ok u)
    (cname m : String)
    (hc : ∀ ctx, (b.load_component nc md.model_dir md cfg ctx).name = cname ∧
      (b.load_component nc md.model_dir md cfg ctx).provide_context =
        Except.error (PyErr.missingArgument m)) :
    Interpreter.create md cfg b skip_valdation req_ok =
      Except.error (PyErr.exception
        ("Failed to initialize component " ++ cname ++ ". " ++ m)) ∧
    Interpreter.load md cfg b skip_valdation req_ok =
      Except.error (PyErr.exception
        ("Failed to initialize component " ++ cname ++ ". " ++ m)) := by
  have hv : (if skip_valdation then Except.ok ()
      else validate_requirements req_ok md.getPipeline) = Except.ok () := by
    rcases hreq with hv | hv
    · rw [hv]; rfl
    · cases skip_valdation
      · simpa using hv
      · rfl
  have h1 : Interpreter.create md cfg b skip_valdation req_ok =
      Except.error (PyErr.exception
        ("Failed to initialize component " ++ cname ++ ". " ++ m)) := by
    rw [Interpreter.create, hv, hids,
      createLoop_wraps_missing b md cfg nc cname m hc pre hpre post [] []]
  exact ⟨h1, h1⟩

/-- Witness for C9: metadata listing components `A`, `B`, with a builder
whose reconstruction of `B` raises a missing-argument error. -/
theorem c9_create_wraps_provide_context_failure_witness :
    Interpreter.create ⟨[("pipeline", Val.list [Val.str "A", Val.str "B"])], "dir"⟩
        ⟨"zh", []⟩
        ⟨fun n _ => stubComponent n,
         fun n _ _ _ _ => if n = "B" then provideFailComponent "B" "missing ctx"
                          else stubComponent n⟩
        true (fun _ => true) =
      Except.error (PyErr.exception
        ("Failed to initialize component " ++ "B" ++ ". " ++ "missing ctx")) ∧
    Interpreter.load ⟨[("pipeline", Val.list [Val.str "A", Val.str "B"])], "dir"⟩
        ⟨"zh", []⟩
        ⟨fun n _ => stubComponent n,
         fun n _ _ _ _ => if n = "B" then provideFailComponent "B" "missing ctx"
                          else stubComponent n⟩
        true (fun _ => true) =
      Except.error (PyErr.exception
        ("Failed to initialize component " ++ "B" ++ ". " ++ "missing ctx")) :=
  c9_create_wraps_provide_context_failure
    ⟨[("pipeline", Val.list [Val.str "A", Val.str "B"])], "dir"⟩ ⟨"zh", []⟩
    ⟨fun n _ => stubComponent n,
     fun n _ _ _ _ => if n = "B" then provideFailComponent "B" "missing ctx"
                      else stubComponent n⟩
    (fun _ => true) true (Or.inl rfl)
    ["A"] "B" [] rfl
    (by
      intro n hn ctx
      simp only [List.mem_singleton] at hn
      subst hn
      exact ⟨none, rfl⟩)
    "B" "missing ctx"
    (fun ctx => ⟨rfl, rfl⟩)

theorem foldl_process_nodup (ctx : Ctx) (cs : List Component)
    (h : ∀ c ∈ cs, ∀ m, nodupKeys m.output → nodupKeys (c.process m ctx).output) :
    ∀ m : Message, nodupKeys m.output →
      nodupKeys ((cs.foldl (fun m c => c.process m ctx) m).output) := by
  induction cs with
  | nil => intro m hm; simpa using hm
  | cons c rest ih =>
    intro m hm
    rw [List.foldl_cons]
    exact ih (fun c' hc' => h c' (List.mem_cons_of_mem c hc'))
      (c.process m ctx) (h c (List.mem_cons_self c rest) m hm)

theorem foldl_process_key (ctx : Ctx) (k : String) (v : Val)
    (post : List Component)
    (hpost : ∀ c' ∈ post, ∀ m : Message, nodupKeys m.output →
      dictGet (c'.process m ctx).output k = dictGet m.output k ∧
      (k ∈ (c'.process m ctx).output_properties ↔ k ∈ m.output_properties) ∧
      nodupKeys (c'.process m ctx).output) :
    ∀ m : Message, nodupKeys m.output → dictGet m.output k = some v →
      k ∈ m.output_properties →
      dictGet ((post.foldl (fun m c => c.process m ctx) m).output) k = some v ∧
      k ∈ (post.foldl (fun m c => c.process m ctx) m).output_properties ∧
      nodupKeys ((post.foldl (fun m c => c.process m ctx) m).output) := by
  induction post with
  | nil => intro m hm hk hp; exact ⟨hk, hp, hm⟩
  | cons c rest ih =>
    intro m hm hk hp
    obtain ⟨h1, h2, h3⟩ := hpost c (List.mem_cons_self c rest) m hm
    rw [List.foldl_cons]
    exact ih (fun c' hc' => hpost c' (List.mem_cons_of_mem c hc'))
      (c.process m ctx) h3 (h1.trans hk) (h2.mpr hp)

/-- C2: for every non-empty text, `parse` returns the default output
attributes overlaid with the message's final output state, so (a) that
equation holds literally, (b) the keys `intent` and `entities` are always
present whatever the pipeline does, and (c) when a component writes a key
(as a dict write, marking it an output property) and no later component
touches that key or its marking, the result holds the last writer's
value.  The `nodupKeys` hypotheses record that components produce real
Python dicts, which never hold a key twice. -/
theorem c2_parse_defaults_overlay_last_writer
    (i : InterpreterState) (s : String) (hs : s ≠ "") (time : Option Val) :
    (Interpreter.parse i (some s) time).1 =
      dictUpdate default_output_attributes
        ((i.pipeline.foldl (fun (m : Message) (c : Component) =>
            c.process m i.context)
          ⟨s, default_output_attributes, [], time⟩).as_dict_only_output) ∧
    hasKey (Interpreter.parse i (some s) time).1 "intent" = true ∧
    hasKey (Interpreter.parse i (some s) time).1 "entities" = true ∧
    (∀ pre c post k v, i.pipeline = pre ++ c :: post →
      (∀ c' ∈ pre, ∀ m : Message, nodupKeys m.output →
        nodupKeys (c'.process m i.context).output) →
      (∀ m : Message, nodupKeys m.output →
        dictGet (c.process m i.context).output k = some v ∧
        k ∈ (c.process m i.context).output_properties ∧
        nodupKeys (c.process m i.context).output) →
      (∀ c' ∈ post, ∀ m : Message, nodupKeys m.output →
        dictGet (c'.process m i.context).output k = dictGet m.output k ∧
        (k ∈ (c'.process m i.context).output_properties ↔
          k ∈ m.output_properties) ∧
        nodupKeys (c'.process m i.context).output) →
      dictGet (Interpreter.parse i (some s) time).1 k = some v) := by
  have hne : textIsEmpty (some s) = false := by
    simp only [textIsEmpty]
    cases h : s.isEmpty
    · rfl
    · exact absurd ((String.isEmpty_iff s).mp h) hs
  have hp1 : (Interpreter.parse i (some s) time).1 =
      dictUpdate default_output_attributes
        ((i.pipeline.foldl (fun (m : Message) (c : Component) =>
            c.process m i.context)
          ⟨s, default_output_attributes, [], time⟩).as_dict_only_output) := by
    rw [Interpreter.parse, if_neg (by rw [hne]; exact Bool.false_ne_true)]
    rfl
  have hnd0 : nodupKeys (default_output_attributes) := by
    rw [nodupKeys, default_output_attributes]
    decide
  refine ⟨hp1, ?_, ?_, ?_⟩
  · rw [hp1]
    exact isSome_dictGet_dictUpdate default_output_attributes _ "intent" rfl
  · rw [hp1]
    exact isSome_dictGet_dictUpdate default_output_attributes _ "entities" rfl
  · intro pre c post k v hpipe hpre hc hpost
    rw [hp1, hpipe, List.foldl_append, List.foldl_cons]
    have hm1 := foldl_process_nodup i.context pre hpre
      ⟨s, default_output_attributes, [], time⟩ hnd0
    obtain ⟨hk2, hprop2, hnd2⟩ :=
      hc (pre.foldl (fun (m : Message) (c : Component) => c.process m i.context)
        ⟨s, default_output_attributes, [], time⟩) hm1
    obtain ⟨hkf, hpropf, hndf⟩ := foldl_process_key i.context k v post hpost
      _ hnd2 hk2 hprop2
    have hu : dictGet ((post.foldl (fun (m : Message) (c : Component) =>
          c.process m i.context)
        (c.process (pre.foldl (fun (m : Message) (c : Component) =>
            c.process m i.context)
          ⟨s, default_output_attributes, [], time⟩)
          i.context)).as_dict_only_output) k = some v := by
      rw [Message.as_dict_only_output, dictGet_filter_keys, if_pos hpropf]
      exact hkf
    exact dictGet_dictUpdate_of_mem _ _ k v
      (nodupKeys_filter _ _ hndf) hu

/-- Witness for C2 at a pipeline with one component writing `intent`. -/
theorem c2_parse_defaults_overlay_last_writer_witness :
    dictGet (Interpreter.parse
      ⟨[writeComponent "A" "intent" (Val.str "greet")], [], none⟩
      (some "hi") none).1 "intent" = some (Val.str "greet") :=
  (c2_parse_defaults_overlay_last_writer
    ⟨[writeComponent "A" "intent" (Val.str "greet")], [], none⟩
    "hi" (by decide) none).2.2.2
    [] (writeComponent "A" "intent" (Val.str "greet")) []
    "intent" (Val.str "greet") rfl
    (fun c' hc' => (List.not_mem_nil c' hc').elim)
    (by
      intro m hm
      refine ⟨?_, List.mem_cons_self "intent" m.output_properties, ?_⟩
      · simp [writeComponent, dictGet_dictSet]
      · exact nodupKeys_dictSet m.output "intent" (Val.str "greet") hm)
    (fun c' hc' => (List.not_mem_nil c' hc').elim)

theorem trainLoop_spec (cfg : Config) :
    ∀ (cs done : List Component) (h : Heap) (wref : Nat) (ctx : Ctx)
      (events : List Event) (ctxf : Ctx) (h2 : Heap),
      trainLoop cfg cs done h wref ctx = (events, Except.ok (ctxf, h2)) →
      ∃ ctxs : Nat → Ctx, ∃ datas : Nat → TData,
        ctxs 0 = ctx ∧ datas 0 = h wref ∧
        events.length = 2 * cs.length ∧
        ∀ i (hi : i < cs.length),
          events.get? (2 * i) = some (Event.prepCall (cs.get ⟨i, hi⟩)
            (done ++ cs.take i) (ctxs i)) ∧
          events.get? (2 * i + 1) = some (Event.trainCall (cs.get ⟨i, hi⟩)
            wref (datas i) (ctxs i)) ∧
          ∃ u, (cs.get ⟨i, hi⟩).train (datas i) cfg (ctxs i) =
            (datas (i + 1), Except.ok u) ∧
            ctxs (i + 1) = applyUpdates (ctxs i) u := by
  intro cs
  induction cs with
  | nil =>
    intro done h wref ctx events ctxf h2 heq
    rw [trainLoop] at heq
    injection heq with h1 h2x
    refine ⟨fun _ => ctx, fun _ => h wref, rfl, rfl, by rw [← h1]; rfl, ?_⟩
    intro i hi
    exact absurd hi (Nat.not_lt_zero i)
  | cons c rest ih =>
    intro done h wref ctx events ctxf h2 heq
    rw [trainLoop] at heq
    cases htr : (c.train (h wref) cfg ctx).2 with
    | error e =>
      rw [htr] at heq
      simp only [] at heq
      injection heq with h1 h2x
      cases h2x
    | ok upd =>
      rw [htr] at heq
      simp only [] at heq
      injection heq with h1 h2x
      obtain ⟨ctxs', datas', hc0, hd0, hlen, hind⟩ :=
        ih (done ++ [c]) (Function.update h wref (c.train (h wref) cfg ctx).1)
          wref (applyUpdates ctx upd)
          (trainLoop cfg rest (done ++ [c])
            (Function.update h wref (c.train (h wref) cfg ctx).1) wref
            (applyUpdates ctx upd)).1 ctxf h2
          (Prod.ext_iff.mpr ⟨rfl, h2x⟩)
      refine ⟨fun i => match i with | 0 => ctx | (j+1) => ctxs' j,
        fun i => match i with | 0 => h wref | (j+1) => datas' j,
        rfl, rfl, ?_, ?_⟩
      · rw [← h1]
        simp only [List.length_append, List.length_cons, List.length_nil, hlen]
        omega
      · intro i hi
        cases i with
        | zero =>
          refine ⟨?_, ?_, upd, ?_, ?_⟩
          · rw [← h1]; simp
          · rw [← h1]; simp
          · refine Prod.ext_iff.mpr ⟨?_, htr⟩
            show (c.train (h wref) cfg ctx).1 = datas' 0
            rw [hd0, Function.update_same]
          · show ctxs' 0 = applyUpdates ctx upd
            rw [hc0]
        | succ j =>
          have hj : j < rest.length := Nat.lt_of_succ_lt_succ hi
          obtain ⟨hprep, htrain, u, hu, hctx⟩ := hind j hj
          have e2 : (2 : Nat) ≤ 2 * (j + 1) := by omega
          have e2b : (2 : Nat) ≤ 2 * (j + 1) + 1 := by omega
          refine ⟨?_, ?_, u, hu, hctx⟩
          · rw [← h1]
            rw [show [Event.prepCall c done ctx,
                Event.trainCall c wref (h wref) ctx] ++
                (trainLoop cfg rest (done ++ [c])
                  (Function.update h wref (c.train (h wref) cfg ctx).1) wref
                  (applyUpdates ctx upd)).1 =
              Event.prepCall c done ctx :: Event.trainCall c wref (h wref) ctx ::
                (trainLoop cfg rest (done ++ [c])
                  (Function.update h wref (c.train (h wref) cfg ctx).1) wref
                  (applyUpdates ctx upd)).1 from rfl]
            rw [show 2 * (j + 1) = (2 * j).succ.succ from by omega]
            rw [List.get?_cons_succ, List.get?_cons_succ, hprep]
            simp [List.append_assoc]
          · rw [← h1]
            rw [show [Event.prepCall c done ctx,
                Event.trainCall c wref (h wref) ctx] ++
                (trainLoop cfg rest (done ++ [c])
                  (Function.update h wref (c.train (h wref) cfg ctx).1) wref
                  (applyUpdates ctx upd)).1 =
              Event.prepCall c done ctx :: Event.trainCall c wref (h wref) ctx ::
                (trainLoop cfg rest (done ++ [c])
                  (Function.update h wref (c.train (h wref) cfg ctx).1) wref
                  (applyUpdates ctx upd)).1 from rfl]
            rw [show 2 * (j + 1) + 1 = (2 * j + 1).succ.succ from by omega]
            rw [List.get?_cons_succ, List.get?_cons_succ, htrain]
            simp

theorem train_ok_inv (t : TrainerState) (h : Heap) (dataRef wref : Nat)
    (events : List Event) (res : TrainerState × InterpreterState × Heap)
    (heq : Trainer.train t h dataRef wref = (events, Except.ok res)) :
    ∃ ctx0, initContext t.pipeline [] = Except.ok ctx0 ∧
      trainLoop t.config t.pipeline [] (Function.update h wref (h dataRef))
          wref ctx0 = (events, Except.ok (res.2.1.context, res.2.2)) ∧
      res.2.1 = ⟨t.pipeline, res.2.1.context, none⟩ ∧
      res.1 = { t with training_data := some (h dataRef) } := by
  rw [Trainer.train] at heq
  cases hic : initContext t.pipeline [] with
  | error e => rw [hic] at heq; simp at heq
  | ok ctx0 =>
    rw [hic] at heq
    simp only [] at heq
    cases hv : (if t.skip_validation then Except.ok ()
        else validate_arguments t.pipeline (dictKeys ctx0)) with
    | error e => rw [hv] at heq; simp at heq
    | ok u =>
      rw [hv] at heq
      simp only [] at heq
      cases hloop : trainLoop t.config t.pipeline []
          (Function.update h wref (h dataRef)) wref ctx0 with
      | mk evs lres =>
        rw [hloop] at heq
        cases lres with
        | error e => simp at heq
        | ok pair =>
          obtain ⟨ctxf, h2⟩ := pair
          injection heq with h1 h2x
          injection h2x with h2x
          refine ⟨ctx0, rfl, ?_, ?_, ?_⟩
          · rw [← h1, ← h2x]
            exact hloop
          · rw [← h2x]
          · rw [← h2x]

/-- C7: on a successful training run, the call trace alternates strictly:
for every index i, component i first receives
`prepare_partial_processing` with exactly the already-trained slice
`pipeline[:i]` and the current context, then its `train` is called on
the working data with that same context, and the update it returns is
folded into the context used at index i+1 (the working data it returns
is the data used at index i+1); the context at index 0 is the
provide-context fold and the data at index 0 is the deep copy of the
caller's corpus. -/
theorem c7_train_prepares_then_trains_in_order
    (t : TrainerState) (h : Heap) (dataRef wref : Nat)
    (events : List Event) (res : TrainerState × InterpreterState × Heap)
    (heq : Trainer.train t h dataRef wref = (events, Except.ok res)) :
    ∃ ctx0, initContext t.pipeline [] = Except.ok ctx0 ∧
    ∃ ctxs : Nat → Ctx, ∃ datas : Nat → TData,
      ctxs 0 = ctx0 ∧ datas 0 = h dataRef ∧
      events.length = 2 * t.pipeline.length ∧
      ∀ i (hi : i < t.pipeline.length),
        events.get? (2 * i) = some (Event.prepCall (t.pipeline.get ⟨i, hi⟩)
          (t.pipeline.take i) (ctxs i)) ∧
        events.get? (2 * i + 1) = some (Event.trainCall (t.pipeline.get ⟨i, hi⟩)
          wref (datas i) (ctxs i)) ∧
        ∃ u, (t.pipeline.get ⟨i, hi⟩).train (datas i) t.config (ctxs i) =
          (datas (i + 1), Except.ok u) ∧
          ctxs (i + 1) = applyUpdates (ctxs i) u := by
  obtain ⟨ctx0, hic, hloop, _, _⟩ := train_ok_inv t h dataRef wref events res heq
  obtain ⟨ctxs, datas, hc0, hd0, hlen, hind⟩ :=
    trainLoop_spec t.config t.pipeline [] (Function.update h wref (h dataRef))
      wref ctx0 events res.2.1.context res.2.2 hloop
  refine ⟨ctx0, hic, ctxs, datas, hc0, ?_, hlen, ?_⟩
  · rw [hd0, Function.update_same]
  · intro i hi
    obtain ⟨hprep, htrain, hrest⟩ := hind i hi
    exact ⟨by rw [hprep]; rw [List.nil_append], htrain, hrest⟩

/-- Witness for C7: a concrete two-component pipeline; the trace shows
prepare-with-prior-slice then train, for each component in order. -/
theorem c7_train_prepares_then_trains_in_order_witness :
    ∃ ctx0, initContext
        (⟨⟨"zh", []⟩, true, none, [stubComponent "A", stubComponent "B"]⟩ :
          TrainerState).pipeline [] = Except.ok ctx0 ∧
    ∃ ctxs : Nat → Ctx, ∃ datas : Nat → TData,
      ctxs 0 = ctx0 ∧ datas 0 = stubHeap 0 ∧
      ([Event.prepCall (stubComponent "A") [] [],
        Event.trainCall (stubComponent "A") 1 stubData [],
        Event.prepCall (stubComponent "B") [stubComponent "A"] [],
        Event.trainCall (stubComponent "B") 1 stubData []] :
          List Event).length =
        2 * (⟨⟨"zh", []⟩, true, none,
          [stubComponent "A", stubComponent "B"]⟩ : TrainerState).pipeline.length ∧
      ∀ i (hi : i < (⟨⟨"zh", []⟩, true, none,
          [stubComponent "A", stubComponent "B"]⟩ : TrainerState).pipeline.length),
        ([Event.prepCall (stubComponent "A") [] [],
          Event.trainCall (stubComponent "A") 1 stubData [],
          Event.prepCall (stubComponent "B") [stubComponent "A"] [],
          Event.trainCall (stubComponent "B") 1 stubData []] :
            List Event).get? (2 * i) =
          some (Event.prepCall
            ((⟨⟨"zh", []⟩, true, none,
              [stubComponent "A", stubComponent "B"]⟩ :
                TrainerState).pipeline.get ⟨i, hi⟩)
            ((⟨⟨"zh", []⟩, true, none,
              [stubComponent "A", stubComponent "B"]⟩ :
                TrainerState).pipeline.take i) (ctxs i)) ∧
        ([Event.prepCall (stubComponent "A") [] [],
          Event.trainCall (stubComponent "A") 1 stubData [],
          Event.prepCall (stubComponent "B") [stubComponent "A"] [],
          Event.trainCall (stubComponent "B") 1 stubData []] :
            List Event).get? (2 * i + 1) =
          some (Event.trainCall
            ((⟨⟨"zh", []⟩, true, none,
              [stubComponent "A", stubComponent "B"]⟩ :
                TrainerState).pipeline.get ⟨i, hi⟩) 1 (datas i) (ctxs i)) ∧
        ∃ u, ((⟨⟨"zh", []⟩, true, none,
            [stubComponent "A", stubComponent "B"]⟩ :
              TrainerState).pipeline.get ⟨i, hi⟩).train (datas i)
            ⟨"zh", []⟩ (ctxs i) = (datas (i + 1), Except.ok u) ∧
          ctxs (i + 1) = applyUpdates (ctxs i) u :=
  c7_train_prepares_then_trains_in_order
    ⟨⟨"zh", []⟩, true, none, [stubComponent "A", stubComponent "B"]⟩
    stubHeap 0 1
    [Event.prepCall (stubComponent "A") [] [],
     Event.trainCall (stubComponent "A") 1 stubData [],
     Event.prepCall (stubComponent "B") [stubComponent "A"] [],
     Event.trainCall (stubComponent "B") 1 stubData []]
    (⟨⟨"zh", []⟩, true, some stubData, [stubComponent "A", stubComponent "B"]⟩,
     ⟨[stubComponent "A", stubComponent "B"], [], none⟩,
     Function.update (Function.update (Function.update stubHeap 1 stubData) 1
       stubData) 1 stubData)
    rfl

theorem trainLoop_heap_frame (cfg : Config) :
    ∀ (cs done : List Component) (h : Heap) (wref : Nat) (ctx : Ctx)
      (events : List Event) (ctxf : Ctx) (h2 : Heap),
      trainLoop cfg cs done h wref ctx = (events, Except.ok (ctxf, h2)) →
      ∀ r, r ≠ wref → h2 r = h r := by
  intro cs
  induction cs with
  | nil =>
    intro done h wref ctx events ctxf h2 heq r hr
    rw [trainLoop] at heq
    injection heq with h1 h2x
    injection h2x with h2x
    rw [show h2 = h from congrArg Prod.snd h2x.symm]
  | cons c rest ih =>
    intro done h wref ctx events ctxf h2 heq r hr
    rw [trainLoop] at heq
    cases htr : (c.train (h wref) cfg ctx).2 with
    | error e =>
      rw [htr] at heq
      simp only [] at heq
      injection heq with h1 h2x
      cases h2x
    | ok upd =>
      rw [htr] at heq
      simp only [] at heq
      injection heq with h1 h2x
      have := ih (done ++ [c])
        (Function.update h wref (c.train (h wref) cfg ctx).1) wref
        (applyUpdates ctx upd)
        (trainLoop cfg rest (done ++ [c])
          (Function.update h wref (c.train (h wref) cfg ctx).1) wref
          (applyUpdates ctx upd)).1 ctxf h2
        (Prod.ext_iff.mpr ⟨rfl, h2x⟩) r hr
      rw [this, Function.update_noteq hr]

theorem trainLoop_trainCalls_use_wref (cfg : Config) :
    ∀ (cs done : List Component) (h : Heap) (wref : Nat) (ctx : Ctx),
      ∀ e ∈ (trainLoop cfg cs done h wref ctx).1, ∀ c r dt cctx,
        e = Event.trainCall c r dt cctx → r = wref := by
  intro cs
  induction cs with
  | nil =>
    intro done h wref ctx e he
    rw [trainLoop] at he
    simp at he
  | cons c rest ih =>
    intro done h wref ctx e he c' r dt cctx heq2
    rw [trainLoop] at he
    cases htr : (c.train (h wref) cfg ctx).2 with
    | error e0 =>
      rw [htr] at he
      simp only [] at he
      rcases List.mem_cons.mp he with he | he
      · rw [he] at heq2; cases heq2
      · rcases List.mem_cons.mp he with he | he
        · rw [he] at heq2
          injection heq2 with hA hB hC hD
          exact hB.symm
        · exact absurd he (List.not_mem_nil e)
    | ok upd =>
      rw [htr] at he
      simp only [] at he
      rcases List.mem_append.mp he with he | he
      · rcases List.mem_cons.mp he with he | he
        · rw [he] at heq2; cases heq2
        · rcases List.mem_cons.mp he with he | he
          · rw [he] at heq2
            injection heq2 with hA hB hC hD
            exact hB.symm
          · exact absurd he (List.not_mem_nil e)
      · exact ih (done ++ [c])
          (Function.update h wref (c.train (h wref) cfg ctx).1) wref
          (applyUpdates ctx upd) e he c' r dt cctx heq2

/-- C8: on a successful training run with the working copy at a fresh
address (deepcopy allocates a new object), the caller's corpus cell is
unchanged by training, every recorded `train` call received the working
copy's address (never the caller's), and — when the pipeline is
non-empty — the first `train` call received exactly the deep-copied
value of the caller's corpus. -/
theorem c8_corpus_unchanged_by_training
    (t : TrainerState) (h : Heap) (dataRef wref : Nat)
    (hfresh : wref ≠ dataRef)
    (events : List Event) (res : TrainerState × InterpreterState × Heap)
    (heq : Trainer.train t h dataRef wref = (events, Except.ok res)) :
    res.2.2 dataRef = h dataRef ∧
    (∀ e ∈ events, ∀ c r dt cctx, e = Event.trainCall c r dt cctx →
      r = wref) ∧
    (t.pipeline ≠ [] → ∃ c cctx,
      events.get? 1 = some (Event.trainCall c wref (h dataRef) cctx)) := by
  obtain ⟨ctx0, hic, hloop, _, _⟩ := train_ok_inv t h dataRef wref events res heq
  have hdr : dataRef ≠ wref := fun hh => hfresh hh.symm
  refine ⟨?_, ?_, ?_⟩
  · have := trainLoop_heap_frame t.config t.pipeline []
      (Function.update h wref (h dataRef)) wref ctx0 events res.2.1.context
      res.2.2 hloop dataRef hdr
    rw [this, Function.update_noteq hdr]
  · intro e he c r dt cctx heq2
    have hev : (trainLoop t.config t.pipeline []
        (Function.update h wref (h dataRef)) wref ctx0).1 = events :=
      congrArg Prod.fst hloop
    exact trainLoop_trainCalls_use_wref t.config t.pipeline []
      (Function.update h wref (h dataRef)) wref ctx0 e
      (by rw [hev]; exact he) c r dt cctx heq2
  · intro hnil
    obtain ⟨ctxs, datas, hc0, hd0, hlen, hind⟩ :=
      trainLoop_spec t.config t.pipeline []
        (Function.update h wref (h dataRef)) wref ctx0 events
        res.2.1.context res.2.2 hloop
    obtain ⟨hprep, htrain, hrest⟩ :=
      hind 0 (List.length_pos.mpr hnil)
    refine ⟨t.pipeline.get ⟨0, List.length_pos.mpr hnil⟩, ctxs 0, ?_⟩
    rw [show (1 : Nat) = 2 * 0 + 1 from rfl, htrain, hd0,
      Function.update_same]

/-- Witness for C8: a component that mutates its working corpus; the
caller's cell still holds the original value after training. -/
theorem c8_corpus_unchanged_by_training_witness :
    ((⟨⟨"zh", []⟩, true, some stubData, [mutateComponent "A"]⟩,
      (⟨[mutateComponent "A"], [], none⟩ : InterpreterState),
      Function.update (Function.update stubHeap 1 stubData) 1
        (⟨Val.str "mutated", fun _ => []⟩ : TData)) :
      TrainerState × InterpreterState × Heap).2.2 0 = stubHeap 0 ∧
    (∀ e ∈ ([Event.prepCall (mutateComponent "A") [] [],
        Event.trainCall (mutateComponent "A") 1 stubData []] : List Event),
      ∀ c r dt cctx, e = Event.trainCall c r dt cctx → r = 1) ∧
    (([mutateComponent "A"] : List Component) ≠ [] → ∃ c cctx,
      ([Event.prepCall (mutateComponent "A") [] [],
        Event.trainCall (mutateComponent "A") 1 stubData []] :
          List Event).get? 1 =
        some (Event.trainCall c 1 (stubHeap 0) cctx)) :=
  c8_corpus_unchanged_by_training
    ⟨⟨"zh", []⟩, true, none, [mutateComponent "A"]⟩ stubHeap 0 1
    (by decide)
    [Event.prepCall (mutateComponent "A") [] [],
     Event.trainCall (mutateComponent "A") 1 stubData []]
    (⟨⟨"zh", []⟩, true, some stubData, [mutateComponent "A"]⟩,
     ⟨[mutateComponent "A"], [], none⟩,
     Function.update (Function.update stubHeap 1 stubData) 1
       ⟨Val.str "mutated", fun _ => []⟩)
    rfl

/-- Witness for C10: the last component's `persist` mapping overwrites
the reserved `pipeline` entry of the metadata record. -/
theorem c10_persist_last_update_wins_witness :
    dictGet (Trainer.persist
      ⟨⟨"zh", []⟩, false, none,
        [stubComponent "A",
         persistComponent "B" [("pipeline", Val.str "shadow")]]⟩
      "p" none none "ts").1.record "pipeline" = some (Val.str "shadow") :=
  (c10_persist_last_update_wins
    ⟨⟨"zh", []⟩, false, none,
      [stubComponent "A", persistComponent "B" [("pipeline", Val.str "shadow")]]⟩
    "p" none none "ts" "pipeline" (Val.str "shadow")).1
    [stubComponent "A"] (persistComponent "B" [("pipeline", Val.str "shadow")])
    [("pipeline", Val.str "shadow")] rfl rfl
    (by simp [nodupKeys]) rfl
